import Mathlib

/-!
Shallow embedding of `appconfig` (src/src/lib.rs): a configuration-file
manager `AppConfigManager<T>` that loads and saves a settings value to
`<os_config_dir>/com.<organization_name>.<app_name>/app_config.toml`.

The filesystem is modelled explicitly as an association list of files plus a
set of directories, with injectable failures for `create_dir_all` and
`write` (which in Rust can fail for external reasons).  The TOML codec
(`toml::to_string` / `toml::from_str`) is an external collaborator and is
modelled as an abstract pair of partial functions.  Each Rust method that
performs IO becomes a Lean function threading the filesystem state and
returning an `Except` for the `Result`.
-/

namespace AppConfig

/-- Error values observable through `Box<dyn Error>` in the Rust code:
`notFound` models `io::ErrorKind::NotFound` (missing config dir or missing
file), `ioError` a directory-creation or write failure,
`deserializationError` a `toml::from_str` failure and `serializationError`
a `toml::to_string` failure. -/
inductive Err where
  | notFound
  | ioError
  | deserializationError
  | serializationError
deriving DecidableEq, Repr

/-- The filesystem: files as `(path, contents)` pairs, existing directories,
and flags injecting failures of `create_dir_all` / `write`. -/
structure FS where
  files : List (String × String)
  dirs : List String
  createDirFails : Bool
  writeFails : Bool
deriving DecidableEq, Repr

/-- Contents of the file at `p`, if present. -/
def FS.lookupFile (fs : FS) (p : String) : Option String :=
  (fs.files.find? (fun kv => kv.1 == p)).map (fun kv => kv.2)

/-- Models `Path::exists`: true if `p` is an existing directory or file. -/
def FS.pathExists (fs : FS) (p : String) : Bool :=
  fs.dirs.contains p || (fs.lookupFile p).isSome

/-- Models `std::fs::create_dir_all`. -/
def FS.create_dir_all (fs : FS) (p : String) : FS × Except Err Unit :=
  if fs.createDirFails then (fs, Except.error Err.ioError)
  else ({ fs with dirs := p :: fs.dirs }, Except.ok ())

/-- Models `std::fs::read_to_string`. -/
def FS.read_to_string (fs : FS) (p : String) : Except Err String :=
  match fs.lookupFile p with
  | some s => Except.ok s
  | none => Except.error Err.notFound

/-- Models `std::fs::write`: replaces the contents of the file at `p`
in full. -/
def FS.write (fs : FS) (p s : String) : FS × Except Err Unit :=
  if fs.writeFails then (fs, Except.error Err.ioError)
  else ({ fs with files := (p, s) :: fs.files.filter (fun kv => kv.1 ≠ p) },
        Except.ok ())

/-- The external TOML codec: `to_string` models `toml::to_string` (with
`none` a serialization failure) and `from_str` models `toml::from_str`
(with `none` a deserialization failure). -/
structure Codec (T : Type) where
  to_string : T → Option String
  from_str : String → Option T

/-- The manager struct.  `data` holds the contents of the
`Rc<RefCell<T>>` cell. -/
structure AppConfigManager (T : Type) where
  data : T
  organization_name : String
  app_name : String
  skip_parsing_error_when_loading : Bool
  auto_saving : Bool
deriving DecidableEq, Repr

namespace AppConfigManager

variable {T : Type}

/-- `AppConfigManager::new`. -/
def new (data : T) (app_name organization_name : String) :
    AppConfigManager T :=
  { data := data
    organization_name := organization_name
    app_name := app_name
    auto_saving := true
    skip_parsing_error_when_loading := true }

/-- `set_skip_parsing_error_when_loading` (value semantics). -/
def set_skip_parsing_error_when_loading (m : AppConfigManager T)
    (value : Bool) : AppConfigManager T :=
  { m with skip_parsing_error_when_loading := value }

/-- `with_skip_parsing_error_when_loading`. -/
def with_skip_parsing_error_when_loading (m : AppConfigManager T)
    (value : Bool) : AppConfigManager T :=
  m.set_skip_parsing_error_when_loading value

/-- `set_auto_saving`. -/
def set_auto_saving (m : AppConfigManager T) (value : Bool) :
    AppConfigManager T :=
  { m with auto_saving := value }

/-- `with_auto_saving`. -/
def with_auto_saving (m : AppConfigManager T) (value : Bool) :
    AppConfigManager T :=
  m.set_auto_saving value

/-- `set_organization_name`. -/
def set_organization_name (m : AppConfigManager T) (value : String) :
    AppConfigManager T :=
  { m with organization_name := value }

/-- `with_organization_name`. -/
def with_organization_name (m : AppConfigManager T) (value : String) :
    AppConfigManager T :=
  m.set_organization_name value

/-- `set_app_name`. -/
def set_app_name (m : AppConfigManager T) (value : String) :
    AppConfigManager T :=
  { m with app_name := value }

/-- `with_app_name`. -/
def with_app_name (m : AppConfigManager T) (value : String) :
    AppConfigManager T :=
  m.set_app_name value

end AppConfigManager

/-- The per-app configuration directory
`<base>/com.<organization_name>.<app_name>`. -/
def appDirPath (base organization_name app_name : String) : String :=
  base ++ "/" ++ "com." ++ organization_name ++ "." ++ app_name

/-- The configuration file path
`<base>/com.<organization_name>.<app_name>/app_config.toml`. -/
def configFilePath (base organization_name app_name : String) : String :=
  appDirPath base organization_name app_name ++ "/" ++ "app_config.toml"

namespace AppConfigManager

variable {T : Type}

/-- `AppConfigManager::get_user_config_path`.  `config_dir` is the result of
`dirs_next::config_dir()` (`none` when no OS config directory exists).
Creates the per-app directory if absent and returns the config file path. -/
def get_user_config_path (m : AppConfigManager T) (config_dir : Option String)
    (fs : FS) : FS × Except Err String :=
  match config_dir with
  | none => (fs, Except.error Err.notFound)
  | some base =>
    let dir := appDirPath base m.organization_name m.app_name
    let step := if fs.pathExists dir then (fs, Except.ok ())
                else fs.create_dir_all dir
    match step with
    | (fs2, Except.ok _) => (fs2, Except.ok (dir ++ "/" ++ "app_config.toml"))
    | (fs2, Except.error e) => (fs2, Except.error e)

/-- `AppConfigManager::load`.  Returns the filesystem, the manager with its
(possibly updated) cell contents, and the `Result`.  On an error the cell is
untouched, so the returned manager equals the input. -/
def load (m : AppConfigManager T) (codec : Codec T)
    (config_dir : Option String) (fs : FS) :
    FS × AppConfigManager T × Except Err Unit :=
  match m.get_user_config_path config_dir fs with
  | (fs1, Except.error e) => (fs1, m, Except.error e)
  | (fs1, Except.ok path) =>
    match fs1.read_to_string path with
    | Except.error e => (fs1, m, Except.error e)
    | Except.ok s =>
      if m.skip_parsing_error_when_loading then
        match codec.from_str s with
        | some value => (fs1, { m with data := value }, Except.ok ())
        | none => (fs1, m, Except.ok ())
      else
        match codec.from_str s with
        | some value => (fs1, { m with data := value }, Except.ok ())
        | none => (fs1, m, Except.error Err.deserializationError)

/-- `AppConfigManager::save`. -/
def save (m : AppConfigManager T) (codec : Codec T)
    (config_dir : Option String) (fs : FS) : FS × Except Err Unit :=
  match m.get_user_config_path config_dir fs with
  | (fs1, Except.error e) => (fs1, Except.error e)
  | (fs1, Except.ok path) =>
    match codec.to_string m.data with
    | none => (fs1, Except.error Err.serializationError)
    | some toml =>
      match fs1.write path toml with
      | (fs2, Except.ok _) => (fs2, Except.ok ())
      | (fs2, Except.error e) => (fs2, Except.error e)

/-- `Drop::drop`: if `auto_saving` is set, attempt a save and discard its
result (`self.save().ok()`); the function returns only the filesystem, so no
error can propagate out of teardown. -/
def drop (m : AppConfigManager T) (codec : Codec T)
    (config_dir : Option String) (fs : FS) : FS :=
  if m.auto_saving then (m.save codec config_dir fs).1 else fs

end AppConfigManager

/-! ### Concrete fixtures for witnesses and counterexamples -/

/-- A concrete, fully executable codec for `Nat`: `n` is encoded as a run of
`n` letters `x`; any string that is not such a run fails to parse. -/
def natCodec : Codec Nat where
  to_string := fun n => some (String.mk (List.replicate n 'x'))
  from_str := fun s =>
    if s.data.all (fun c => c == 'x') then some s.data.length else none

/-- A codec whose serializer always fails, modelling a settings value the
format cannot represent. -/
def failCodec : Codec Nat where
  to_string := fun _ => none
  from_str := fun _ => none

/-- An empty filesystem with no injected failures. -/
def emptyFS : FS :=
  { files := [], dirs := [], createDirFails := false, writeFails := false }

/-- A filesystem holding an unparseable config file for organization `o`,
app `a`, under config root `/c`. -/
def badFS : FS :=
  { files := [(configFilePath "/c" "o" "a", "?!")]
    dirs := [appDirPath "/c" "o" "a"]
    createDirFails := false
    writeFails := false }

/-! ### Helper lemmas -/

/-- `find?` for key `q` is unaffected by filtering out the entries with a
different key `p`. -/
theorem find?_filter_ne (l : List (String × String)) (p q : String)
    (h : q ≠ p) :
    (l.filter (fun kv => kv.1 ≠ p)).find? (fun kv => kv.1 == q) =
      l.find? (fun kv => kv.1 == q) := by
  rw [List.find?_filter]
  congr 1
  funext kv
  by_cases hq : kv.1 = q
  · subst hq
    simp [h]
  · simp [hq]

/-- The app directory path is never equal to the config file path beneath
it. -/
theorem appDirPath_ne_configFilePath (base o a : String) :
    appDirPath base o a ≠ configFilePath base o a := by
  intro h
  have h2 := congrArg String.length h
  have hs : ("/" : String).length = 1 := rfl
  simp only [configFilePath, String.length_append, hs] at h2
  omega

/-- Closed form of `get_user_config_path` on a resolvable config root. -/
theorem get_user_config_path_eq {T : Type} (m : AppConfigManager T)
    (base : String) (fs : FS) :
    m.get_user_config_path (some base) fs =
      if fs.pathExists (appDirPath base m.organization_name m.app_name) then
        (fs, Except.ok (configFilePath base m.organization_name m.app_name))
      else if fs.createDirFails then (fs, Except.error Err.ioError)
      else ({ fs with
                dirs := appDirPath base m.organization_name m.app_name ::
                  fs.dirs },
            Except.ok (configFilePath base m.organization_name m.app_name)) := by
  unfold AppConfigManager.get_user_config_path FS.create_dir_all
  simp only [configFilePath]
  split_ifs <;> rfl

/-- `read_to_string` depends only on the files. -/
theorem read_to_string_congr (fs1 fs2 : FS) (h : fs1.files = fs2.files)
    (p : String) : fs1.read_to_string p = fs2.read_to_string p := by
  simp [FS.read_to_string, FS.lookupFile, h]

/-- When the app directory exists or is creatable, `get_user_config_path`
succeeds with the config file path, leaving the files untouched and the app
directory present. -/
theorem gucp_ok {T : Type} (m : AppConfigManager T) (base : String) (fs : FS)
    (hstep : fs.pathExists (appDirPath base m.organization_name m.app_name)
        = true ∨ fs.createDirFails = false) :
    ∃ fs1, m.get_user_config_path (some base) fs =
        (fs1, Except.ok (configFilePath base m.organization_name m.app_name)) ∧
      fs1.files = fs.files ∧
      fs1.pathExists (appDirPath base m.organization_name m.app_name) = true ∧
      fs1.createDirFails = fs.createDirFails ∧
      fs1.writeFails = fs.writeFails := by
  rw [get_user_config_path_eq]
  by_cases hpe : fs.pathExists (appDirPath base m.organization_name m.app_name)
  · exact ⟨fs, by simp [hpe], rfl, hpe, rfl, rfl⟩
  · rcases hstep with hstep | hstep
    · exact absurd hstep hpe
    · refine ⟨{ fs with dirs := appDirPath base m.organization_name m.app_name :: fs.dirs }, by simp [hpe, hstep], rfl, ?_, rfl, rfl⟩
      simp [FS.pathExists]

/-- The continuation of `load` after a successful path computation. -/
theorem load_eq_of_gucp {T : Type} (m : AppConfigManager T) (codec : Codec T)
    (cfg : Option String) (fs fs1 : FS) (path : String)
    (hg : m.get_user_config_path cfg fs = (fs1, Except.ok path)) :
    m.load codec cfg fs =
      match fs1.read_to_string path with
      | Except.error e => (fs1, m, Except.error e)
      | Except.ok s =>
        if m.skip_parsing_error_when_loading then
          match codec.from_str s with
          | some value => (fs1, { m with data := value }, Except.ok ())
          | none => (fs1, m, Except.ok ())
        else
          match codec.from_str s with
          | some value => (fs1, { m with data := value }, Except.ok ())
          | none => (fs1, m, Except.error Err.deserializationError) := by
  unfold AppConfigManager.load
  rw [hg]

/-- A failed path computation makes `load` fail with the same error. -/
theorem load_eq_of_gucp_err {T : Type} (m : AppConfigManager T)
    (codec : Codec T) (cfg : Option String) (fs fs1 : FS) (e : Err)
    (hg : m.get_user_config_path cfg fs = (fs1, Except.error e)) :
    m.load codec cfg fs = (fs1, m, Except.error e) := by
  unfold AppConfigManager.load
  rw [hg]

/-- The continuation of `save` after a successful path computation. -/
theorem save_eq_of_gucp {T : Type} (m : AppConfigManager T) (codec : Codec T)
    (cfg : Option String) (fs fs1 : FS) (path : String)
    (hg : m.get_user_config_path cfg fs = (fs1, Except.ok path)) :
    m.save codec cfg fs =
      match codec.to_string m.data with
      | none => (fs1, Except.error Err.serializationError)
      | some toml =>
        match fs1.write path toml with
        | (fs2, Except.ok _) => (fs2, Except.ok ())
        | (fs2, Except.error e) => (fs2, Except.error e) := by
  unfold AppConfigManager.save
  rw [hg]

/-- A failed path computation makes `save` fail with the same error. -/
theorem save_eq_of_gucp_err {T : Type} (m : AppConfigManager T)
    (codec : Codec T) (cfg : Option String) (fs fs1 : FS) (e : Err)
    (hg : m.get_user_config_path cfg fs = (fs1, Except.error e)) :
    m.save codec cfg fs = (fs1, Except.error e) := by
  unfold AppConfigManager.save
  rw [hg]

/-- A write that does not fail replaces the file at `p` in full. -/
theorem write_eq_of_ok (fs : FS) (p s : String)
    (hw : fs.writeFails = false) :
    fs.write p s =
      ({ fs with files := (p, s) :: fs.files.filter (fun kv => kv.1 ≠ p) },
       Except.ok ()) := by
  simp [FS.write, hw]

/-- After a replacement, the written file holds exactly `s`. -/
theorem lookupFile_replace_self (fs : FS) (l : List (String × String))
    (p s : String) :
    ({ fs with files := (p, s) :: l } : FS).lookupFile p = some s := by
  simp [FS.lookupFile]

/-- A replacement at `p` does not affect the file at a different `q`. -/
theorem lookupFile_replace_ne (fs : FS) (p s q : String) (h : q ≠ p) :
    ({ fs with files := (p, s) ::
        fs.files.filter (fun kv => kv.1 ≠ p) } : FS).lookupFile q =
      fs.lookupFile q := by
  have hq : ((p, s).1 == q) = false := by
    simp only [beq_eq_false_iff_ne, ne_eq]
    exact fun hc => h hc.symm
  simp only [FS.lookupFile, List.find?_cons, hq]
  rw [find?_filter_ne _ _ _ h]

/-- With the config file missing, `load` fails with `notFound` and leaves
the manager untouched, whatever the flags are. -/
theorem load_of_missing {T : Type} (m : AppConfigManager T) (codec : Codec T)
    (base : String) (fs : FS)
    (hstep : fs.pathExists (appDirPath base m.organization_name m.app_name)
        = true ∨ fs.createDirFails = false)
    (hfile : fs.lookupFile
      (configFilePath base m.organization_name m.app_name) = none) :
    (m.load codec (some base) fs).2 = (m, Except.error Err.notFound) := by
  obtain ⟨fs1, hg, hfiles, -, -, -⟩ := gucp_ok m base fs hstep
  rw [load_eq_of_gucp m codec _ fs fs1 _ hg,
    read_to_string_congr fs1 fs hfiles]
  simp [FS.read_to_string, hfile]

/-- With content `s` stored at the config file path, `load` reads `s` and
dispatches on the parse result and the flag. -/
theorem load_of_found {T : Type} (m : AppConfigManager T) (codec : Codec T)
    (base : String) (fs : FS) (s : String)
    (hstep : fs.pathExists (appDirPath base m.organization_name m.app_name)
        = true ∨ fs.createDirFails = false)
    (hfile : fs.lookupFile
      (configFilePath base m.organization_name m.app_name) = some s) :
    (m.load codec (some base) fs).2 =
      (match codec.from_str s with
       | some v => ({ m with data := v }, Except.ok ())
       | none =>
         if m.skip_parsing_error_when_loading then (m, Except.ok ())
         else (m, Except.error Err.deserializationError)) := by
  obtain ⟨fs1, hg, hfiles, -, -, -⟩ := gucp_ok m base fs hstep
  rw [load_eq_of_gucp m codec _ fs fs1 _ hg,
    read_to_string_congr fs1 fs hfiles]
  simp only [FS.read_to_string, hfile]
  cases hfrom : codec.from_str s <;>
    by_cases hskip : m.skip_parsing_error_when_loading <;>
      simp [hfrom, hskip]

/-- Inversion of a successful `save`: the settings value serialized, the
file at the config path now holds exactly that serialization (everything
previously stored there was dropped), the app directory exists, and the
failure-injection flags are untouched. -/
theorem save_ok_inversion {T : Type} (m : AppConfigManager T)
    (codec : Codec T) (base : String) (fs fs1 : FS)
    (h : m.save codec (some base) fs = (fs1, Except.ok ())) :
    ∃ s, codec.to_string m.data = some s ∧
      fs1.files = (configFilePath base m.organization_name m.app_name, s) ::
        fs.files.filter (fun kv =>
          kv.1 ≠ configFilePath base m.organization_name m.app_name) ∧
      fs1.lookupFile (configFilePath base m.organization_name m.app_name) =
        some s ∧
      fs1.pathExists (appDirPath base m.organization_name m.app_name) =
        true ∧
      fs1.createDirFails = fs.createDirFails ∧
      fs1.writeFails = fs.writeFails := by
  have hne := appDirPath_ne_configFilePath base m.organization_name m.app_name
  by_cases hstep : fs.pathExists (appDirPath base m.organization_name
      m.app_name) = true ∨ fs.createDirFails = false
  · obtain ⟨fs2, hg, hfiles, hpe2, hcd2, hw2⟩ := gucp_ok m base fs hstep
    rw [save_eq_of_gucp m codec _ fs fs2 _ hg] at h
    cases hser : codec.to_string m.data with
    | none => rw [hser] at h; simp at h
    | some s =>
      rw [hser] at h
      dsimp only at h
      by_cases hw : fs2.writeFails = true
      · simp [FS.write, hw] at h
      · have hw0 : fs2.writeFails = false := by simpa using hw
        rw [write_eq_of_ok fs2 _ s hw0] at h
        dsimp only at h
        simp only [Prod.mk.injEq, and_true] at h
        subst h
        refine ⟨s, rfl, ?_, ?_, ?_, ?_, ?_⟩
        · simp [hfiles]
        · exact lookupFile_replace_self ..
        · have hlk := lookupFile_replace_ne fs2
            (configFilePath base m.organization_name m.app_name) s
            (appDirPath base m.organization_name m.app_name) hne
          simp only [FS.pathExists] at hpe2 ⊢
          rw [hlk]
          simpa using hpe2
        · simpa using hcd2
        · simpa using hw2
  · push_neg at hstep
    obtain ⟨hpe, hcd⟩ := hstep
    have hcd1 : fs.createDirFails = true := by simpa using hcd
    have hg : m.get_user_config_path (some base) fs =
        (fs, Except.error Err.ioError) := by
      rw [get_user_config_path_eq]
      simp [hpe, hcd1]
    rw [save_eq_of_gucp_err m codec _ fs fs Err.ioError hg] at h
    simp at h

/-- Entries with a key other than `p` never match a later filter for `p`. -/
theorem filter_key_filter_ne (l : List (String × String)) (p : String) :
    (l.filter (fun kv => kv.1 ≠ p)).filter (fun kv => kv.1 == p) = [] := by
  rw [List.filter_eq_nil_iff]
  intro kv hkv
  have h2 := (List.mem_filter.mp hkv).2
  simp at h2 ⊢
  exact h2

/-! ### Claims -/

/-- C1 counterexample: `new` enables the load-error-tolerance flag, yet
`load()` on a filesystem without the config file returns the `notFound`
error — not success — and leaves the settings value untouched rather than
resetting it to a default. -/
theorem C1_counterexample :
    (((AppConfigManager.new (5 : Nat) "myapp" "org").load natCodec
        (some "/cfg") emptyFS).2.2 = Except.error Err.notFound) ∧
    (((AppConfigManager.new (5 : Nat) "myapp" "org").load natCodec
        (some "/cfg") emptyFS).2.1.data = 5) :=
  ⟨rfl, rfl⟩

/-- C1 (amended): with `skip_parsing_error_when_loading` enabled, `load()`
called when the config file does not exist propagates the read error
(`notFound`) and leaves the settings value unchanged; the flag does not
suppress IO errors. -/
theorem C1_load_missing_file_errors {T : Type} (m : AppConfigManager T)
    (codec : Codec T) (base : String) (fs : FS)
    (hskip : m.skip_parsing_error_when_loading = true)
    (hcd : fs.createDirFails = false)
    (hfile : fs.lookupFile
      (configFilePath base m.organization_name m.app_name) = none) :
    (m.load codec (some base) fs).2.2 = Except.error Err.notFound ∧
    (m.load codec (some base) fs).2.1 = m := by
  have h := load_of_missing m codec base fs (Or.inr hcd) hfile
  exact ⟨by rw [h], by rw [h]⟩

/-- Witness for C1: a fresh manager over an empty filesystem satisfies the
hypotheses, and its `load` indeed fails with `notFound`. -/
theorem C1_load_missing_file_errors_witness :
    (AppConfigManager.new (5 : Nat) "a" "o").skip_parsing_error_when_loading
        = true ∧
    emptyFS.createDirFails = false ∧
    emptyFS.lookupFile (configFilePath "/c" "o" "a") = none ∧
    ((AppConfigManager.new (5 : Nat) "a" "o").load natCodec (some "/c")
        emptyFS).2.2 = Except.error Err.notFound :=
  ⟨rfl, rfl, rfl,
    (C1_load_missing_file_errors (AppConfigManager.new (5 : Nat) "a" "o")
      natCodec "/c" emptyFS rfl rfl rfl).1⟩

/-- C2 counterexample: with the flag enabled, `load()` on a file whose
content fails to parse does return success, but the settings value is left
at its pre-call value (5 stays 5, 7 stays 7) instead of being set to any
fixed default. -/
theorem C2_counterexample :
    (((AppConfigManager.new (5 : Nat) "a" "o").load natCodec (some "/c")
        badFS).2.2 = Except.ok ()) ∧
    (((AppConfigManager.new (5 : Nat) "a" "o").load natCodec (some "/c")
        badFS).2.1.data = 5) ∧
    (((AppConfigManager.new (7 : Nat) "a" "o").load natCodec (some "/c")
        badFS).2.1.data = 7) :=
  ⟨rfl, rfl, rfl⟩

/-- C2 (amended): with `skip_parsing_error_when_loading` enabled, `load()`
on a file whose content fails to deserialize returns success and leaves the
settings value unchanged (it is not reset to the type's default). -/
theorem C2_load_parse_error_skipped {T : Type} (m : AppConfigManager T)
    (codec : Codec T) (base : String) (fs : FS) (s : String)
    (hskip : m.skip_parsing_error_when_loading = true)
    (hcd : fs.createDirFails = false)
    (hfile : fs.lookupFile
      (configFilePath base m.organization_name m.app_name) = some s)
    (hparse : codec.from_str s = none) :
    (m.load codec (some base) fs).2.2 = Except.ok () ∧
    (m.load codec (some base) fs).2.1 = m := by
  have h := load_of_found m codec base fs s (Or.inr hcd) hfile
  simp only [hparse, hskip, if_true] at h
  exact ⟨by rw [h], by rw [h]⟩

/-- Witness for C2: a manager over the malformed file satisfies the
hypotheses and its `load` returns success. -/
theorem C2_load_parse_error_skipped_witness :
    badFS.lookupFile (configFilePath "/c" "o" "a") = some "?!" ∧
    natCodec.from_str "?!" = none ∧
    ((AppConfigManager.new (5 : Nat) "a" "o").load natCodec (some "/c")
        badFS).2.2 = Except.ok () :=
  ⟨rfl, rfl,
    (C2_load_parse_error_skipped (AppConfigManager.new (5 : Nat) "a" "o")
      natCodec "/c" badFS "?!" rfl rfl rfl rfl).1⟩

/-- C3: with `skip_parsing_error_when_loading` disabled, `load()` on a file
whose content fails to deserialize returns the deserialization error and
leaves the settings value unchanged (the returned manager equals the input
manager). -/
theorem C3_load_parse_error_propagates {T : Type} (m : AppConfigManager T)
    (codec : Codec T) (base : String) (fs : FS) (s : String)
    (hskip : m.skip_parsing_error_when_loading = false)
    (hcd : fs.createDirFails = false)
    (hfile : fs.lookupFile
      (configFilePath base m.organization_name m.app_name) = some s)
    (hparse : codec.from_str s = none) :
    (m.load codec (some base) fs).2.2 =
        Except.error Err.deserializationError ∧
    (m.load codec (some base) fs).2.1 = m := by
  have h := load_of_found m codec base fs s (Or.inr hcd) hfile
  simp only [hparse, hskip, Bool.false_eq_true, if_false] at h
  exact ⟨by rw [h], by rw [h]⟩

/-- Witness for C3: the flag is disabled through the builder setter; `load`
on the malformed file then reports the deserialization failure. -/
theorem C3_load_parse_error_propagates_witness :
    ((AppConfigManager.new (5 : Nat) "a"
        "o").with_skip_parsing_error_when_loading
        false).skip_parsing_error_when_loading = false ∧
    (((AppConfigManager.new (5 : Nat) "a"
        "o").with_skip_parsing_error_when_loading false).load natCodec
        (some "/c") badFS).2.2 = Except.error Err.deserializationError :=
  ⟨rfl,
    (C3_load_parse_error_propagates
      ((AppConfigManager.new (5 : Nat) "a"
        "o").with_skip_parsing_error_when_loading false)
      natCodec "/c" badFS "?!" rfl rfl rfl rfl).1⟩

/-- C4: round-trip — if the codec round-trips the current settings value
`m.data` and `save()` succeeds, a subsequent `load()` (on the filesystem
produced by the save) succeeds and the in-memory settings value equals
`m.data`, for either flag value. -/
theorem C4_save_load_round_trip {T : Type} (m : AppConfigManager T)
    (codec : Codec T) (base : String) (fs fs1 : FS) (s : String)
    (hser : codec.to_string m.data = some s)
    (hde : codec.from_str s = some m.data)
    (hsave : m.save codec (some base) fs = (fs1, Except.ok ())) :
    (m.load codec (some base) fs1).2.2 = Except.ok () ∧
    (m.load codec (some base) fs1).2.1.data = m.data := by
  obtain ⟨s2, hser2, hfiles1, hlk, hpe1, hcd1, hw1⟩ :=
    save_ok_inversion m codec base fs fs1 hsave
  rw [hser] at hser2
  injection hser2 with hss
  subst hss
  have h := load_of_found m codec base fs1 s (Or.inl hpe1) hlk
  rw [hde] at h
  dsimp only at h
  exact ⟨by rw [h], by rw [h]⟩

/-- Witness for C4: saving the value 3 through the concrete codec and
loading it back restores 3. -/
theorem C4_save_load_round_trip_witness :
    natCodec.to_string 3 = some "xxx" ∧
    natCodec.from_str "xxx" = some 3 ∧
    ((AppConfigManager.new (3 : Nat) "a" "o").load natCodec (some "/c")
      ((AppConfigManager.new (3 : Nat) "a" "o").save natCodec (some "/c")
        emptyFS).1).2.1.data = 3 :=
  ⟨rfl, rfl,
    (C4_save_load_round_trip (AppConfigManager.new (3 : Nat) "a" "o")
      natCodec "/c" emptyFS _ "xxx" rfl rfl rfl).2⟩

/-- C5: the config file path used by `load`/`save` is
`<base>/com.<organization_name>.<app_name>/app_config.toml`; it is
recomputed from the manager's current names on every call (renaming through
the builder setters changes the path), and the containing directory exists
after any successful path computation; `save` writes at exactly this path
and `load` reads from exactly this path. -/
theorem C5_config_path {T : Type} (m : AppConfigManager T) (codec : Codec T)
    (base : String) (fs : FS) (o a : String)
    (hcd : fs.createDirFails = false) :
    (∀ fs1 p, m.get_user_config_path (some base) fs = (fs1, Except.ok p) →
       p = configFilePath base m.organization_name m.app_name) ∧
    ((((m.with_organization_name o).with_app_name a).get_user_config_path
        (some base) fs).2 = Except.ok (configFilePath base o a)) ∧
    (∀ fs1 p, m.get_user_config_path (some base) fs = (fs1, Except.ok p) →
       fs1.pathExists (appDirPath base m.organization_name m.app_name) =
         true) ∧
    (∀ fs1, m.save codec (some base) fs = (fs1, Except.ok ()) →
       fs1.lookupFile (configFilePath base m.organization_name m.app_name) =
         codec.to_string m.data) ∧
    (fs.lookupFile (configFilePath base m.organization_name m.app_name) =
        none →
       (m.load codec (some base) fs).2.2 = Except.error Err.notFound) := by
  refine ⟨?_, ?_, ?_, ?_, ?_⟩
  · intro fs1 p hg
    obtain ⟨fs2, hg2, -, -, -, -⟩ := gucp_ok m base fs (Or.inr hcd)
    rw [hg] at hg2
    simp only [Prod.mk.injEq, Except.ok.injEq] at hg2
    exact hg2.2
  · obtain ⟨fs2, hg2, -, -, -, -⟩ :=
      gucp_ok ((m.with_organization_name o).with_app_name a) base fs
        (Or.inr hcd)
    rw [hg2]
    rfl
  · intro fs1 p hg
    obtain ⟨fs2, hg2, -, hpe2, -, -⟩ := gucp_ok m base fs (Or.inr hcd)
    rw [hg] at hg2
    simp only [Prod.mk.injEq, Except.ok.injEq] at hg2
    rw [hg2.1]
    exact hpe2
  · intro fs1 hsv
    obtain ⟨s, hser, -, hlk, -, -, -⟩ :=
      save_ok_inversion m codec base fs fs1 hsv
    rw [hlk, hser]
  · intro hf
    have h := load_of_missing m codec base fs (Or.inr hcd) hf
    rw [h]

/-- Witness for C5: renaming a fresh manager makes its next path
computation use the new names. -/
theorem C5_config_path_witness :
    emptyFS.createDirFails = false ∧
    ((((AppConfigManager.new (0 : Nat) "a"
        "o").with_organization_name "neworg").with_app_name
        "newapp").get_user_config_path (some "/c") emptyFS).2 =
      Except.ok (configFilePath "/c" "neworg" "newapp") :=
  ⟨rfl,
    (C5_config_path (AppConfigManager.new (0 : Nat) "a" "o") natCodec "/c"
      emptyFS "neworg" "newapp" rfl).2.1⟩

/-- C6: `save()` replaces the file content in full — after two successful
saves with different values, the file at the config path holds exactly the
serialization of the second value: looking it up yields that serialization,
and it is the only entry stored at that path (no append, no merge). -/
theorem C6_second_save_wins {T : Type} (m : AppConfigManager T)
    (codec : Codec T) (base : String) (v1 v2 : T) (fs fs1 fs2 : FS)
    (s2 : String)
    (hv : v1 ≠ v2)
    (hsave1 : ({ m with data := v1 }).save codec (some base) fs =
      (fs1, Except.ok ()))
    (hsave2 : ({ m with data := v2 }).save codec (some base) fs1 =
      (fs2, Except.ok ()))
    (hs2 : codec.to_string v2 = some s2) :
    fs2.lookupFile (configFilePath base m.organization_name m.app_name) =
      some s2 ∧
    fs2.files.filter (fun kv =>
        kv.1 == configFilePath base m.organization_name m.app_name) =
      [(configFilePath base m.organization_name m.app_name, s2)] := by
  obtain ⟨t2, hser2, hfiles2, hlk2, -, -, -⟩ :=
    save_ok_inversion ({ m with data := v2 }) codec base fs1 fs2 hsave2
  dsimp only at hser2 hfiles2 hlk2
  rw [hs2] at hser2
  injection hser2 with hss
  subst hss
  refine ⟨hlk2, ?_⟩
  rw [hfiles2, List.filter_cons]
  simp only [beq_self_eq_true, if_true]
  rw [filter_key_filter_ne]

/-- Witness for C6: saving 2 then 3 leaves exactly the serialization of 3
at the config path. -/
theorem C6_second_save_wins_witness :
    natCodec.to_string 3 = some "xxx" ∧
    (((AppConfigManager.new (3 : Nat) "a" "o").save natCodec (some "/c")
        ((AppConfigManager.new (2 : Nat) "a" "o").save natCodec (some "/c")
          emptyFS).1).1).lookupFile (configFilePath "/c" "o" "a") =
      some "xxx" :=
  ⟨rfl,
    (C6_second_save_wins (AppConfigManager.new (3 : Nat) "a" "o") natCodec
      "/c" 2 3 emptyFS
      ((AppConfigManager.new (2 : Nat) "a" "o").save natCodec (some "/c")
        emptyFS).1
      (((AppConfigManager.new (3 : Nat) "a" "o").save natCodec (some "/c")
        ((AppConfigManager.new (2 : Nat) "a" "o").save natCodec (some "/c")
          emptyFS).1).1)
      "xxx" (by decide) rfl rfl rfl).1⟩

/-- C7: teardown — when the manager is dropped with `auto_saving` enabled a
save is attempted and its outcome (the filesystem of the attempted save) is
kept while any error is discarded, `drop` having no error channel at all;
with `auto_saving` disabled the filesystem is returned untouched. -/
theorem C7_drop_semantics {T : Type} (m : AppConfigManager T)
    (codec : Codec T) (cfg : Option String) (fs : FS) :
    (m.auto_saving = false → m.drop codec cfg fs = fs) ∧
    (m.auto_saving = true →
      (∀ fs1, m.save codec cfg fs = (fs1, Except.ok ()) →
        m.drop codec cfg fs = fs1) ∧
      (∀ fs1 e, m.save codec cfg fs = (fs1, Except.error e) →
        m.drop codec cfg fs = fs1)) := by
  refine ⟨?_, ?_⟩
  · intro h
    simp [AppConfigManager.drop, h]
  · intro h
    constructor
    · intro fs1 hs
      simp [AppConfigManager.drop, h, hs]
    · intro fs1 e hs
      simp [AppConfigManager.drop, h, hs]

/-- Witness for C7: a fresh manager has `auto_saving` enabled, and dropping
it yields the filesystem of the attempted save. -/
theorem C7_drop_semantics_witness :
    (AppConfigManager.new (3 : Nat) "a" "o").auto_saving = true ∧
    (AppConfigManager.new (3 : Nat) "a" "o").drop natCodec (some "/c")
        emptyFS =
      ((AppConfigManager.new (3 : Nat) "a" "o").save natCodec (some "/c")
        emptyFS).1 :=
  ⟨rfl,
    ((C7_drop_semantics (AppConfigManager.new (3 : Nat) "a" "o") natCodec
      (some "/c") emptyFS).2 rfl).1 _ rfl⟩

/-- C8: `new(initial_value, app_name, organization_name)` stores the value
and the names exactly as given (its type takes no filesystem and performs
no filesystem effect), and both behavior flags — `auto_saving` and
`skip_parsing_error_when_loading` — are enabled in the fresh manager. -/
theorem C8_new_defaults {T : Type} (v : T) (a o : String) :
    (AppConfigManager.new v a o).data = v ∧
    (AppConfigManager.new v a o).app_name = a ∧
    (AppConfigManager.new v a o).organization_name = o ∧
    (AppConfigManager.new v a o).auto_saving = true ∧
    (AppConfigManager.new v a o).skip_parsing_error_when_loading = true :=
  ⟨rfl, rfl, rfl, rfl, rfl⟩

/-- C9: `save()` returns an error whenever path resolution, directory
creation, serialization, or the file write fails — for every manager, hence
for every flag configuration; in particular a serialization failure is
reported as `serializationError` and is never suppressed. -/
theorem C9_save_error_propagation {T : Type} (m : AppConfigManager T)
    (codec : Codec T) (base : String) (fs : FS) :
    (m.save codec none fs = (fs, Except.error Err.notFound)) ∧
    (fs.pathExists (appDirPath base m.organization_name m.app_name) =
        false →
      fs.createDirFails = true →
      m.save codec (some base) fs = (fs, Except.error Err.ioError)) ∧
    (codec.to_string m.data = none → fs.createDirFails = false →
      (m.save codec (some base) fs).2 =
        Except.error Err.serializationError) ∧
    (∀ s, codec.to_string m.data = some s → fs.createDirFails = false →
      fs.writeFails = true →
      (m.save codec (some base) fs).2 = Except.error Err.ioError) := by
  refine ⟨?_, ?_, ?_, ?_⟩
  · exact save_eq_of_gucp_err m codec none fs fs Err.notFound rfl
  · intro hpe hcd
    have hg : m.get_user_config_path (some base) fs =
        (fs, Except.error Err.ioError) := by
      rw [get_user_config_path_eq]
      simp [hpe, hcd]
    exact save_eq_of_gucp_err m codec _ fs fs Err.ioError hg
  · intro hser hcd
    obtain ⟨fs2, hg, -, -, -, -⟩ := gucp_ok m base fs (Or.inr hcd)
    rw [save_eq_of_gucp m codec _ fs fs2 _ hg, hser]
  · intro s hser hcd hw
    obtain ⟨fs2, hg, -, -, -, hw2⟩ := gucp_ok m base fs (Or.inr hcd)
    rw [save_eq_of_gucp m codec _ fs fs2 _ hg, hser]
    dsimp only
    rw [hw] at hw2
    simp [FS.write, hw2]

/-- Witness for C9: a serializer that cannot encode the value makes `save`
fail with `serializationError` even though both flags are at their enabled
defaults. -/
theorem C9_save_error_propagation_witness :
    failCodec.to_string 3 = none ∧
    ((AppConfigManager.new (3 : Nat) "a" "o").save failCodec (some "/c")
        emptyFS).2 = Except.error Err.serializationError :=
  ⟨rfl,
    (C9_save_error_propagation (AppConfigManager.new (3 : Nat) "a" "o")
      failCodec "/c" emptyFS).2.2.1 rfl rfl⟩

/-- C10: with `skip_parsing_error_when_loading` enabled, `load()` returns
success whenever the file read succeeds, whether or not the content parses;
on a parse failure the in-memory settings value is left unchanged; and a
missing file makes `load()` return the `notFound` error for either value of
the flag. -/
theorem C10_skip_flag_semantics {T : Type} (m : AppConfigManager T)
    (codec : Codec T) (base : String) (fs : FS)
    (hskip : m.skip_parsing_error_when_loading = true)
    (hcd : fs.createDirFails = false) :
    (∀ s, fs.lookupFile
        (configFilePath base m.organization_name m.app_name) = some s →
      (m.load codec (some base) fs).2.2 = Except.ok ()) ∧
    (∀ s, fs.lookupFile
        (configFilePath base m.organization_name m.app_name) = some s →
      codec.from_str s = none →
      (m.load codec (some base) fs).2.1 = m) ∧
    (∀ b : Bool, fs.lookupFile
        (configFilePath base m.organization_name m.app_name) = none →
      (({ m with skip_parsing_error_when_loading := b }).load codec
        (some base) fs).2.2 = Except.error Err.notFound) := by
  refine ⟨?_, ?_, ?_⟩
  · intro s hf
    have h := load_of_found m codec base fs s (Or.inr hcd) hf
    cases hfrom : codec.from_str s with
    | none =>
      simp only [hfrom, hskip, if_true] at h
      rw [h]
    | some v =>
      rw [hfrom] at h
      dsimp only at h
      rw [h]
  · intro s hf hparse
    have h := load_of_found m codec base fs s (Or.inr hcd) hf
    simp only [hparse, hskip, if_true] at h
    rw [h]
  · intro b hf
    have h := load_of_missing ({ m with
      skip_parsing_error_when_loading := b }) codec base fs (Or.inr hcd) hf
    rw [h]

/-- Witness for C10: with the flag enabled, loading the unparseable file
succeeds. -/
theorem C10_skip_flag_semantics_witness :
    badFS.lookupFile (configFilePath "/c" "o" "a") = some "?!" ∧
    ((AppConfigManager.new (9 : Nat) "a" "o").load natCodec (some "/c")
        badFS).2.2 = Except.ok () :=
  ⟨rfl,
    (C10_skip_flag_semantics (AppConfigManager.new (9 : Nat) "a" "o")
      natCodec "/c" badFS rfl rfl).1 "?!" rfl⟩

end AppConfig
